import Mathlib

/-!
Verification development for the vapi-claude-webhook repository.

The repository is a voice-assistant webhook bridging a telephony platform's
tool calls to an LLM chat API and a Google-Calendar backend.  The definitions
below are a shallow embedding of the decision logic of the final entry-point
variant (service-account calendar auth): the time normalizer `normalizeTime`,
the availability overlap check `checkAvailability`, the booking helper
`bookAppointment`, the webhook tool-call loop, and the conversational
handler's canonicalization and validation phase.  Remote collaborators
(calendar list/insert, JSON.parse of an argument string, the LLM completion)
are passed in as explicit oracle parameters or outcome values.
-/

namespace VapiWebhook

instance {ε α : Type} [DecidableEq ε] [DecidableEq α] : DecidableEq (Except ε α) :=
  fun x y =>
    match x, y with
    | .ok a, .ok b =>
        if h : a = b then .isTrue (by rw [h]) else .isFalse (by intro hc; cases hc; exact h rfl)
    | .error a, .error b =>
        if h : a = b then .isTrue (by rw [h]) else .isFalse (by intro hc; cases hc; exact h rfl)
    | .ok _, .error _ => .isFalse (by intro hc; cases hc)
    | .error _, .ok _ => .isFalse (by intro hc; cases hc)

/-! ### Decimal digits, as used by JS parseInt and Number.prototype.toString -/

/-- Value of a decimal digit character, as parseInt computes it. -/
def digitVal (c : Char) : Nat := c.toNat - '0'.toNat

/-- parseInt on a string of decimal digit characters. -/
def digitsToNat (l : List Char) : Nat := l.foldl (fun a c => 10 * a + digitVal c) 0

/-- The decimal digit character for a value below ten. -/
def digitChar (n : Nat) : Char :=
  match n with
  | 0 => '0' | 1 => '1' | 2 => '2' | 3 => '3' | 4 => '4'
  | 5 => '5' | 6 => '6' | 7 => '7' | 8 => '8' | 9 => '9'
  | _ => '*'

/-- Fueled decimal rendering of a natural number (fuel bounds the recursion
so the definition is structural and kernel-reducible). -/
def natReprAux : Nat → Nat → List Char
  | 0, _ => []
  | fuel + 1, n =>
      if n < 10 then [digitChar n]
      else natReprAux fuel (n / 10) ++ [digitChar (n % 10)]

/-- Decimal rendering of a natural number; models JS Number.prototype.toString. -/
def natRepr (n : Nat) : List Char := natReprAux (n + 1) n

/-- Models JS hour.toString().padStart(2, the zero character). -/
def pad2 (n : Nat) : List Char := if n < 10 then '0' :: natRepr n else natRepr n

/-! ### The two regular expressions of normalizeTime

Pattern one, anchored at both ends, with the source's hour-range check folded
in by the caller.  Pattern two is an unanchored search with JS backtracking
semantics (greedy quantifiers, leftmost match, AM tried before PM).
-/

/-- Anchored match of the source regex matching one or two hour digits, a
colon, and exactly two minute digits; returns the captured hour digits and
minute digits. -/
def matchHHMM (s : List Char) : Option (List Char × List Char) :=
  match s with
  | [a, c, m1, m2] =>
      if c = ':' && a.isDigit && m1.isDigit && m2.isDigit then some ([a], [m1, m2]) else none
  | [a, b, c, m1, m2] =>
      if c = ':' && a.isDigit && b.isDigit && m1.isDigit && m2.isDigit then
        some ([a, b], [m1, m2])
      else none
  | _ => none

/-- JS whitespace characters relevant to the embedding. -/
def isSpaceChar (c : Char) : Bool := c = ' ' || c = '\t' || c = '\n' || c = '\r'

/-- A successful match of the unanchored 12-hour regex: the captured hour
digits, the optional captured minute digits, and whether the suffix was PM. -/
structure AmpmMatch where
  hourDigits : List Char
  minuteDigits : Option (List Char)
  isPM : Bool
  deriving DecidableEq, Repr

/-- The final part of the 12-hour regex: any run of whitespace then a
case-insensitive AM or PM; returns whether it was PM. -/
def ampmTail (l : List Char) : Option Bool :=
  match l.dropWhile isSpaceChar with
  | p :: m :: _ =>
      if (p = 'A' || p = 'a') && (m = 'M' || m = 'm') then some false
      else if (p = 'P' || p = 'p') && (m = 'M' || m = 'm') then some true
      else none
  | _ => none

/-- The optional two-digit minute group: greedily try to consume two digits,
falling back to the empty match when the rest of the pattern then fails. -/
def minuteBranch (l : List Char) (h : List Char) : Option AmpmMatch :=
  (match l with
   | m1 :: m2 :: rest =>
       if m1.isDigit && m2.isDigit then
         (ampmTail rest).map (fun pm => ⟨h, some [m1, m2], pm⟩)
       else none
   | _ => none)
  <|> (ampmTail l).map (fun pm => ⟨h, none, pm⟩)

/-- The optional colon: greedily consume it when present, falling back to the
empty match when the rest of the pattern then fails. -/
def colonBranch (l : List Char) (h : List Char) : Option AmpmMatch :=
  (match l with
   | c :: rest => if c = ':' then minuteBranch rest h else none
   | _ => none)
  <|> minuteBranch l h

/-- The one-or-two hour digits at the start of a candidate match, greedy. -/
def hourBranch : List Char → Option AmpmMatch
  | [] => none
  | [d1] => if d1.isDigit then colonBranch [] [d1] else none
  | d1 :: d2 :: rest =>
      if d1.isDigit && d2.isDigit then
        colonBranch rest [d1, d2] <|> colonBranch (d2 :: rest) [d1]
      else if d1.isDigit then colonBranch (d2 :: rest) [d1]
      else none

/-- Unanchored search: try the pattern at every position, leftmost first. -/
def searchAmpm : List Char → Option AmpmMatch
  | [] => none
  | c :: rest => hourBranch (c :: rest) <|> searchAmpm rest

/-! ### normalizeTime -/

/-- The already-24-hour branch of normalizeTime: anchored HH:MM match plus
the hour-below-24 check; on success the hour is zero-padded and the minute
kept verbatim. -/
def hhmmBranch (s : List Char) : Option (List Char) :=
  (matchHHMM s).bind fun hm =>
    let hour := digitsToNat hm.1
    if hour < 24 then some (pad2 hour ++ ':' :: hm.2) else none

/-- The 12-hour conversion rule of normalizeTime: add 12 for PM unless the
hour is 12, map 12 AM to 0, otherwise keep the hour. -/
def ampmHour (h : Nat) (isPM : Bool) : Nat :=
  if isPM && h ≠ 12 then h + 12
  else if !isPM && h = 12 then 0
  else h

/-- Output built from a successful 12-hour match: converted, zero-padded hour
and the captured minutes, defaulting to double zero when omitted. -/
def ampmResult (a : AmpmMatch) : List Char :=
  pad2 (ampmHour (digitsToNat a.hourDigits) a.isPM) ++ ':' :: a.minuteDigits.getD ['0', '0']

/-- Core of normalizeTime on character lists: the 24-hour branch first, then
the unanchored 12-hour search; none means the function throws. -/
def normalizeTimeCore (s : List Char) : Option (List Char) :=
  hhmmBranch s <|> (searchAmpm s).map ampmResult

/-- normalizeTime of the source: returns the normalized HH:MM string or
throws an invalid-time-format error naming the offending input. -/
def normalizeTime (time : String) : Except String String :=
  match normalizeTimeCore time.toList with
  | some r => .ok ⟨r⟩
  | none => .error ("Invalid time format: " ++ time ++ ". Expected HH:MM or H:MM AM/PM")

example : normalizeTime "7 PM" = .ok "19:00" := by decide
example : normalizeTime "12 AM" = .ok "00:00" := by decide
example : normalizeTime "9:05" = .ok "09:05" := by decide
example : (normalizeTime "25:00").isOk = false := by decide
example : normalizeTime "13:30 PM" = .ok "25:30" := by decide
example : normalizeTime "10:99" = .ok "10:99" := by decide
example : normalizeTime "7:30pm" = .ok "19:30" := by decide
example : normalizeTime "07:30 PM" = .ok "19:30" := by decide
example : normalizeTime "hello 7 PM world" = .ok "19:00" := by decide
example : (normalizeTime "banana").isOk = false := by decide

/-! ### checkAvailability

The availability engine normalizes both times, composes request instants,
asks the calendar collaborator for events, then recomputes overlap locally:
an event overlaps the requested window when the event starts before the
requested end and ends after the requested start.  The calendar's reply and
the composed request instants are parameters of the embedding; instants are
integers (millisecond timestamps).
-/

/-- A calendar event as consumed by the overlap filter: start and end
instants (the source reads dateTime or date and builds a Date). -/
structure CalEvent where
  eStart : Int
  eEnd : Int
  deriving DecidableEq, Repr

/-- The availability record returned to the tool dispatcher. -/
structure AvailOutcome where
  available : Bool
  message : String
  deriving DecidableEq, Repr

/-- The source's event filter predicate: event starts before requested end
and event ends after requested start. -/
def overlapsReq (reqStart reqEnd : Int) (e : CalEvent) : Bool :=
  e.eStart < reqEnd && e.eEnd > reqStart

/-- checkAvailability after successful time normalization and instant
composition, applied to the event list the calendar collaborator returned:
filters overlapping events locally and is available iff none overlap. -/
def checkAvailability (date startTime endTime : String) (reqStart reqEnd : Int)
    (events : List CalEvent) : AvailOutcome :=
  let overlappingEvents := events.filter (overlapsReq reqStart reqEnd)
  let isAvailable := overlappingEvents.length == 0
  let debugInfo := " [DEBUG: Found " ++ toString events.length ++ " total events, "
      ++ toString overlappingEvents.length ++ " overlapping]"
  { available := isAvailable
    message :=
      if isAvailable then
        "Yes, " ++ date ++ " from " ++ startTime ++ " to " ++ endTime ++ " is available." ++ debugInfo
      else
        "Sorry, " ++ date ++ " from " ++ startTime ++ " to " ++ endTime ++ " is already booked." ++ debugInfo }

/-! ### bookAppointment

The booking engine normalizes both times inside a try block, builds the
event and submits it to the calendar collaborator's insert operation; any
throw (invalid time, insert failure) is caught and becomes a success-false
record.  The insert outcome is a parameter of the embedding.
-/

/-- Outcome of the calendar collaborator's insert operation. -/
inductive InsertOutcome where
  | inserted (id link : String)
  | failed (msg : String)
  deriving DecidableEq, Repr

/-- The record bookAppointment hands back to its caller. -/
structure BookOutcome where
  success : Bool
  message : String
  eventId : Option String
  link : Option String
  deriving DecidableEq, Repr

/-- The body of bookAppointment's try block: normalize both times (either may
throw), then submit the event; an insert failure is a throw as well. -/
def bookAppointmentTry (date startTime endTime : String)
    (ins : InsertOutcome) : Except String BookOutcome := do
  let _fs ← normalizeTime startTime
  let _fe ← normalizeTime endTime
  match ins with
  | .inserted id link =>
      .ok { success := true
            message := "Appointment booked successfully for " ++ date ++ " from "
              ++ startTime ++ " to " ++ endTime ++ "."
            eventId := some id
            link := some link }
  | .failed m => .error m

/-- bookAppointment: the try block with its catch handler, which converts any
throw into a success-false record with a human-readable message. -/
def bookAppointment (date startTime endTime : String) (ins : InsertOutcome) : BookOutcome :=
  match bookAppointmentTry date startTime endTime ins with
  | .ok r => r
  | .error e =>
      { success := false
        message := "Unable to book the appointment at this time. Error: " ++ e
        eventId := none
        link := none }

/-! ### The webhook tool-call loop

Each inbound tool call carries an id, a function name, and arguments that
are either a JSON-encoded string (parsed inside the per-call try block,
where parsing may throw) or an already-structured bag.  The parse oracle and
the executor oracle (the awaited calendar-backed tools, which never throw)
are parameters of the embedding.
-/

/-- An argument bag after parsing: a mapping from names to values. -/
def ArgBag : Type := List (String × String)

instance : DecidableEq ArgBag := by unfold ArgBag; infer_instance

/-- One inbound tool invocation of a webhook batch. -/
structure ToolCall where
  id : String
  name : String
  arguments : Sum String ArgBag
  deriving DecidableEq

/-- One entry of the results array sent back to the platform. -/
structure ToolResultEntry where
  toolCallId : String
  result : String
  deriving DecidableEq

/-- Dispatch on the tool name: the two known tools run through the executor
oracle (their implementations catch internally and return a message), any
other name yields the unknown-tool text. -/
def runTool (exec : String → ArgBag → String) (name : String) (bag : ArgBag) : String :=
  if name = "check_availability" then exec name bag
  else if name = "book_appointment" then exec name bag
  else "Unknown tool: " ++ name

/-- The per-invocation try block: parse a string-encoded argument bag with
the parse oracle (structured bags pass through), run the tool; the catch
handler turns a parse throw into an error-text result for this call only. -/
def processToolCall (parse : String → Except String ArgBag)
    (exec : String → ArgBag → String) (tc : ToolCall) : ToolResultEntry :=
  match (match tc.arguments with
         | .inl s => parse s
         | .inr bag => .ok bag) with
  | .ok bag => { toolCallId := tc.id, result := runTool exec tc.name bag }
  | .error e => { toolCallId := tc.id, result := "Error: " ++ e }

/-- The webhook loop: every invocation of the batch is processed in order,
each contributing exactly one result entry. -/
def processToolCalls (parse : String → Except String ArgBag)
    (exec : String → ArgBag → String) (calls : List ToolCall) : List ToolResultEntry :=
  calls.map (processToolCall parse exec)

/-! ### Message canonicalization and the two handlers' gate logic -/

/-- One inbound chat message. -/
structure Msg where
  role : String
  content : String
  deriving DecidableEq, Repr

/-- Role folding on the way into the canonical form: assistant stays,
everything else becomes user; content is kept. -/
def toClaudeMsg (m : Msg) : Msg :=
  { role := if m.role = "assistant" then "assistant" else "user", content := m.content }

/-- The baked-in persona used when no system message is present. -/
def defaultSystem : String :=
  "You are a professional voice secretary. Keep responses brief (1-2 sentences)."

/-- System-prompt extraction: first message with role system, its content
taken through the JS or-else (so an empty content string falls back to the
default persona, exactly as the source's truthiness test does). -/
def extractSystem (messages : List Msg) : String :=
  match messages.find? (fun m => m.role == "system") with
  | some m => if m.content = "" then defaultSystem else m.content
  | none => defaultSystem

/-- Canonicalization of a conversational payload: the extracted system
prompt plus the non-system turns with roles folded. -/
def canonicalizeConv (messages : List Msg) : String × List Msg :=
  (extractSystem messages,
   (messages.filter (fun m => m.role != "system")).map toClaudeMsg)

/-- Body shapes of the HTTP responses the two handlers produce. -/
inductive RespBody where
  | errorBody (msg : String)
  | ackBody
  | resultsBody (rs : List ToolResultEntry)
  | chatBody (content : String)
  deriving DecidableEq

/-- An HTTP response: status code and JSON body shape. -/
structure HttpResponse where
  status : Nat
  body : RespBody
  deriving DecidableEq

/-- The conversational handler's validation phase: reject a missing or empty
messages array, canonicalize, reject when no non-system turn remains; only
then hand the system prompt and turns to the rest of the handler, which
begins with the remote LLM call and is a parameter of the embedding. -/
def handleConversation (rest : String → List Msg → HttpResponse)
    (messages? : Option (List Msg)) : HttpResponse :=
  match messages? with
  | none => { status := 400, body := .errorBody "No valid messages provided" }
  | some messages =>
      if messages.length = 0 then
        { status := 400, body := .errorBody "No valid messages provided" }
      else
        let canon := canonicalizeConv messages
        if canon.2.length = 0 then
          { status := 400, body := .errorBody "At least one non-system message required" }
        else
          rest canon.1 canon.2

/-- The tool webhook's gate: a body without tool calls (absent field or empty
array) is acknowledged with a received-true no-op; otherwise the batch is
processed and its results returned. -/
def webhookHandler (parse : String → Except String ArgBag)
    (exec : String → ArgBag → String) (toolCalls? : Option (List ToolCall)) : HttpResponse :=
  match toolCalls? with
  | none => { status := 200, body := .ackBody }
  | some [] => { status := 200, body := .ackBody }
  | some calls => { status := 200, body := .resultsBody (processToolCalls parse exec calls) }

/-- A conversational payload with no usable turns: messages missing or not
an array, an empty array, or only system turns. -/
def NoUsableTurns (messages? : Option (List Msg)) : Prop :=
  messages? = none ∨ messages? = some [] ∨
    ∃ l, messages? = some l ∧ ∀ m ∈ l, m.role = "system"

/-! ### Helper lemmas -/

lemma available_eq_true_iff (date startTime endTime : String) (reqStart reqEnd : Int)
    (events : List CalEvent) :
    (checkAvailability date startTime endTime reqStart reqEnd events).available = true ↔
      ∀ e ∈ events, ¬(e.eStart < reqEnd ∧ reqStart < e.eEnd) := by
  show ((events.filter (overlapsReq reqStart reqEnd)).length == 0) = true ↔ _
  simp only [beq_iff_eq, List.length_eq_zero, List.filter_eq_nil_iff, overlapsReq]
  constructor
  · intro h e he hc
    exact h e he (by simp [decide_eq_true_iff, hc.1, hc.2])
  · intro h e he hp
    simp only [Bool.and_eq_true, decide_eq_true_iff] at hp
    exact h e he ⟨hp.1, hp.2⟩

lemma bookAppointmentTry_ok_shape (date startTime endTime : String) (ins : InsertOutcome)
    (r : BookOutcome) (htry : bookAppointmentTry date startTime endTime ins = .ok r) :
    r.success = true ∧ r.eventId.isSome = true ∧ r.link.isSome = true := by
  unfold bookAppointmentTry at htry
  cases hs : normalizeTime startTime with
  | error e => rw [hs] at htry; simp [Bind.bind, Except.bind] at htry
  | ok fs =>
      rw [hs] at htry
      cases he : normalizeTime endTime with
      | error e => rw [he] at htry; simp [Bind.bind, Except.bind] at htry
      | ok fe =>
          rw [he] at htry
          cases ins with
          | failed m => simp [Bind.bind, Except.bind] at htry
          | inserted id link =>
              simp [Bind.bind, Except.bind] at htry
              rw [← htry]
              exact ⟨rfl, rfl, rfl⟩

lemma processToolCall_toolCallId (parse : String → Except String ArgBag)
    (exec : String → ArgBag → String) (tc : ToolCall) :
    (processToolCall parse exec tc).toolCallId = tc.id := by
  rcases tc with ⟨id, name, args⟩
  unfold processToolCall
  cases args with
  | inl s => cases hp : parse s <;> simp [hp]
  | inr bag => simp

/-! ### Digit and decimal-rendering lemmas -/

lemma digitChar_isDigit (d : Nat) (h : d < 10) : (digitChar d).isDigit = true := by
  interval_cases d <;> decide

lemma digitVal_digitChar (d : Nat) (h : d < 10) : digitVal (digitChar d) = d := by
  interval_cases d <;> decide

lemma digitVal_le_nine (c : Char) (h : c.isDigit = true) : digitVal c ≤ 9 := by
  have h2 : c.val ≤ 57 := by
    unfold Char.isDigit at h
    exact (Bool.and_eq_true _ _ |>.mp h).2 |> of_decide_eq_true
  have h3 : c.toNat ≤ 57 := by
    have := UInt32.le_def.mp h2
    simpa [Char.toNat, UInt32.toNat] using this
  have h0 : Char.toNat '0' = 48 := rfl
  unfold digitVal
  omega

lemma digitsToNat_pair (c1 c2 : Char) :
    digitsToNat [c1, c2] = 10 * digitVal c1 + digitVal c2 := by
  show 10 * (10 * 0 + digitVal c1) + digitVal c2 = _
  omega

lemma digitsToNat_single (c : Char) : digitsToNat [c] = digitVal c := by
  show 10 * 0 + digitVal c = _
  omega

lemma digitsToNat_append_one (l : List Char) (c : Char) :
    digitsToNat (l ++ [c]) = 10 * digitsToNat l + digitVal c := by
  unfold digitsToNat
  rw [List.foldl_append]
  rfl

lemma natReprAux_succ (fuel n : Nat) :
    natReprAux (fuel + 1) n =
      if n < 10 then [digitChar n] else natReprAux fuel (n / 10) ++ [digitChar (n % 10)] := rfl

lemma natRepr_lt10 (n : Nat) (h : n < 10) : natRepr n = [digitChar n] := by
  unfold natRepr
  rw [natReprAux_succ]
  simp [h]

lemma natReprAux_fuel (n : Nat) : ∀ fuel, n < fuel → natReprAux fuel n = natRepr n := by
  induction n using Nat.strong_induction_on with
  | _ n ih =>
      intro fuel hf
      match fuel, hf with
      | f + 1, hf =>
          by_cases h10 : n < 10
          · rw [natRepr_lt10 n h10, natReprAux_succ]
            simp [h10]
          · have hd : n / 10 < n := Nat.div_lt_self (by omega) (by omega)
            have hstep : natReprAux (f + 1) n = natReprAux f (n / 10) ++ [digitChar (n % 10)] := by
              rw [natReprAux_succ]
              simp [h10]
            have hstep2 : natRepr n = natReprAux n (n / 10) ++ [digitChar (n % 10)] := by
              unfold natRepr
              rw [natReprAux_succ]
              simp [h10]
            rw [hstep, hstep2, ih (n / 10) hd f (by omega), ih (n / 10) hd n hd]

lemma natRepr_ge10 (n : Nat) (h : 10 ≤ n) :
    natRepr n = natRepr (n / 10) ++ [digitChar (n % 10)] := by
  have hd : n / 10 < n := Nat.div_lt_self (by omega) (by omega)
  have hstep : natRepr n = natReprAux n (n / 10) ++ [digitChar (n % 10)] := by
    unfold natRepr
    rw [natReprAux_succ]
    simp [show ¬n < 10 by omega]
  rw [hstep, natReprAux_fuel (n / 10) n hd]

lemma natRepr_two_digits (n : Nat) (h1 : 10 ≤ n) (h2 : n < 100) :
    natRepr n = [digitChar (n / 10), digitChar (n % 10)] := by
  rw [natRepr_ge10 n h1, natRepr_lt10 (n / 10) (by omega)]
  rfl

lemma pad2_lt100 (n : Nat) (h : n < 100) :
    ∃ c1 c2, pad2 n = [c1, c2] ∧ c1.isDigit = true ∧ c2.isDigit = true ∧
      digitsToNat [c1, c2] = n := by
  by_cases h10 : n < 10
  · refine ⟨'0', digitChar n, ?_, by decide, digitChar_isDigit n h10, ?_⟩
    · unfold pad2
      rw [if_pos h10, natRepr_lt10 n h10]
    · rw [digitsToNat_pair, digitVal_digitChar n h10]
      have h0 : digitVal '0' = 0 := rfl
      omega
  · refine ⟨digitChar (n / 10), digitChar (n % 10), ?_, digitChar_isDigit _ (by omega),
      digitChar_isDigit _ (Nat.mod_lt _ (by omega)), ?_⟩
    · unfold pad2
      rw [if_neg h10, natRepr_two_digits n (by omega) h]
    · rw [digitsToNat_pair, digitVal_digitChar _ (by omega),
        digitVal_digitChar _ (Nat.mod_lt _ (by omega))]
      omega

lemma pad2_ge100 (n : Nat) (h1 : 100 ≤ n) (h2 : n < 1000) :
    ∃ c1 c2 c3, pad2 n = [c1, c2, c3] ∧ c1.isDigit = true ∧ c2.isDigit = true ∧
      c3.isDigit = true := by
  have hq1 : 10 ≤ n / 10 := by omega
  have hq2 : n / 10 < 100 := by omega
  refine ⟨digitChar (n / 10 / 10), digitChar (n / 10 % 10), digitChar (n % 10), ?_,
    digitChar_isDigit _ (by omega), digitChar_isDigit _ (Nat.mod_lt _ (by omega)),
    digitChar_isDigit _ (Nat.mod_lt _ (by omega))⟩
  unfold pad2
  rw [if_neg (by omega), natRepr_ge10 n (by omega), natRepr_two_digits (n / 10) hq1 hq2]
  rfl

/-! ### The AM/PM search fails on letter-free input -/

/-- Characters able to open the AM or PM alternative of the 12-hour regex. -/
def IsAmpmLetter (c : Char) : Prop := c = 'A' ∨ c = 'a' ∨ c = 'P' ∨ c = 'p'

lemma ampmTail_none_of_no_letter (l : List Char) (h : ∀ c ∈ l, ¬IsAmpmLetter c) :
    ampmTail l = none := by
  unfold ampmTail
  cases hdw : l.dropWhile isSpaceChar with
  | nil => rfl
  | cons p rest =>
      cases rest with
      | nil => rfl
      | cons m rest2 =>
          have hpd : p ∈ l.dropWhile isSpaceChar := by
            rw [hdw]
            exact List.mem_cons_self _ _
          have hp : p ∈ l := List.dropWhile_subset isSpaceChar hpd
          have hnp := h p hp
          unfold IsAmpmLetter at hnp
          push_neg at hnp
          simp [hnp.1, hnp.2.1, hnp.2.2.1, hnp.2.2.2]

lemma minuteBranch_none_of_no_letter (l hh : List Char) (h : ∀ c ∈ l, ¬IsAmpmLetter c) :
    minuteBranch l hh = none := by
  unfold minuteBranch
  have htail : ampmTail l = none := ampmTail_none_of_no_letter l h
  cases l with
  | nil => simp [htail]
  | cons m1 rest =>
      cases rest with
      | nil => simp [htail]
      | cons m2 rest2 =>
          have h2 : ampmTail rest2 = none :=
            ampmTail_none_of_no_letter rest2 (fun c hc => h c (by simp [hc]))
          by_cases hd : (m1.isDigit && m2.isDigit) = true
          · simp [htail, h2, hd]
          · simp [htail, hd]

lemma minuteBranch_nil_eq (hh : List Char) : minuteBranch [] hh = none := rfl

lemma minuteBranch_one_eq (m1 : Char) (hh : List Char) :
    minuteBranch [m1] hh =
      (ampmTail [m1]).map (fun pm => (⟨hh, none, pm⟩ : AmpmMatch)) := rfl

lemma minuteBranch_cons2_eq (m1 m2 : Char) (rest hh : List Char) :
    minuteBranch (m1 :: m2 :: rest) hh =
      ((if m1.isDigit && m2.isDigit then
          (ampmTail rest).map (fun pm => (⟨hh, some [m1, m2], pm⟩ : AmpmMatch))
        else none)
        <|> (ampmTail (m1 :: m2 :: rest)).map (fun pm => (⟨hh, none, pm⟩ : AmpmMatch))) := rfl

lemma colonBranch_nil_eq (hh : List Char) : colonBranch [] hh = minuteBranch [] hh := rfl

lemma colonBranch_cons_eq (c : Char) (rest hh : List Char) :
    colonBranch (c :: rest) hh =
      ((if c = ':' then minuteBranch rest hh else none) <|> minuteBranch (c :: rest) hh) := rfl

lemma hourBranch_one_eq (d1 : Char) :
    hourBranch [d1] = if d1.isDigit then colonBranch [] [d1] else none := rfl

lemma hourBranch_cons2_eq (d1 d2 : Char) (rest : List Char) :
    hourBranch (d1 :: d2 :: rest) =
      if d1.isDigit && d2.isDigit then
        colonBranch rest [d1, d2] <|> colonBranch (d2 :: rest) [d1]
      else if d1.isDigit then colonBranch (d2 :: rest) [d1]
      else none := rfl

lemma searchAmpm_cons_eq (c : Char) (rest : List Char) :
    searchAmpm (c :: rest) = (hourBranch (c :: rest) <|> searchAmpm rest) := rfl

lemma colonBranch_none_of_no_letter (l hh : List Char) (h : ∀ c ∈ l, ¬IsAmpmLetter c) :
    colonBranch l hh = none := by
  have hmb : minuteBranch l hh = none := minuteBranch_none_of_no_letter l hh h
  cases l with
  | nil => rw [colonBranch_nil_eq, hmb]
  | cons c rest =>
      have hrest : minuteBranch rest hh = none :=
        minuteBranch_none_of_no_letter rest hh (fun x hx => h x (by simp [hx]))
      rw [colonBranch_cons_eq]
      by_cases hc : c = ':'
      · rw [if_pos hc, hrest, hmb]
        rfl
      · rw [if_neg hc, hmb]
        rfl

lemma hourBranch_none_of_no_letter (l : List Char) (h : ∀ c ∈ l, ¬IsAmpmLetter c) :
    hourBranch l = none := by
  cases l with
  | nil => rfl
  | cons d1 rest =>
      cases rest with
      | nil =>
          rw [hourBranch_one_eq]
          have hc := colonBranch_none_of_no_letter [] [d1] (by simp)
          by_cases hd : d1.isDigit = true <;> simp [hd, hc]
      | cons d2 rest2 =>
          rw [hourBranch_cons2_eq]
          have hc1 : colonBranch rest2 [d1, d2] = none :=
            colonBranch_none_of_no_letter rest2 [d1, d2] (fun x hx => h x (by simp [hx]))
          have hc2 : colonBranch (d2 :: rest2) [d1] = none :=
            colonBranch_none_of_no_letter (d2 :: rest2) [d1] (fun x hx => h x (by simp [hx]))
          by_cases hd : (d1.isDigit && d2.isDigit) = true
          · simp [hd, hc1, hc2]
          · by_cases hd1 : d1.isDigit = true <;> simp [hd, hd1, hc1, hc2]

lemma searchAmpm_none_of_no_letter (l : List Char) (h : ∀ c ∈ l, ¬IsAmpmLetter c) :
    searchAmpm l = none := by
  induction l with
  | nil => rfl
  | cons c rest ih =>
      rw [searchAmpm_cons_eq, hourBranch_none_of_no_letter (c :: rest) h,
        ih (fun x hx => h x (by simp [hx]))]
      rfl

lemma isDigit_not_ampm_letter (c : Char) (h : c.isDigit = true) : ¬IsAmpmLetter c := by
  intro hl
  rcases hl with rfl | rfl | rfl | rfl <;> simp at h

/-! ### Shapes of successful matches -/

lemma orElse_eq_some_cases {α : Type} {x y : Option α} {a : α} (h : (x <|> y) = some a) :
    x = some a ∨ (x = none ∧ y = some a) := by
  cases x with
  | none => right; exact ⟨rfl, by simpa using h⟩
  | some b => left; simpa using h

/-- Well-formedness of the optional minute capture. -/
def GoodMinutes : Option (List Char) → Prop
  | none => True
  | some m => ∃ m1 m2, m = [m1, m2] ∧ m1.isDigit = true ∧ m2.isDigit = true

/-- Well-formedness of the hour capture: one or two digit characters. -/
def GoodHour (hd : List Char) : Prop :=
  (∃ d, hd = [d] ∧ d.isDigit = true) ∨
    (∃ d1 d2, hd = [d1, d2] ∧ d1.isDigit = true ∧ d2.isDigit = true)

lemma minuteBranch_some_shape (l hh : List Char) (a : AmpmMatch)
    (h : minuteBranch l hh = some a) : a.hourDigits = hh ∧ GoodMinutes a.minuteDigits := by
  cases l with
  | nil => rw [minuteBranch_nil_eq] at h; cases h
  | cons m1 rest =>
      cases rest with
      | nil =>
          rw [minuteBranch_one_eq] at h
          cases hta : ampmTail [m1] with
          | none => rw [hta] at h; cases h
          | some pm => rw [hta] at h; cases h; exact ⟨rfl, trivial⟩
      | cons m2 rest2 =>
          rw [minuteBranch_cons2_eq] at h
          rcases orElse_eq_some_cases h with h1 | ⟨_, h2⟩
          · by_cases hd : (m1.isDigit && m2.isDigit) = true
            · rw [if_pos hd] at h1
              cases hta : ampmTail rest2 with
              | none => rw [hta] at h1; cases h1
              | some pm =>
                  rw [hta] at h1
                  cases h1
                  refine ⟨rfl, m1, m2, rfl, ?_, ?_⟩
                  · exact (Bool.and_eq_true _ _ |>.mp hd).1
                  · exact (Bool.and_eq_true _ _ |>.mp hd).2
            · rw [if_neg hd] at h1; cases h1
          · cases hta : ampmTail (m1 :: m2 :: rest2) with
            | none => rw [hta] at h2; cases h2
            | some pm => rw [hta] at h2; cases h2; exact ⟨rfl, trivial⟩

lemma colonBranch_some_shape (l hh : List Char) (a : AmpmMatch)
    (h : colonBranch l hh = some a) : a.hourDigits = hh ∧ GoodMinutes a.minuteDigits := by
  cases l with
  | nil =>
      rw [colonBranch_nil_eq] at h
      exact minuteBranch_some_shape [] hh a h
  | cons c rest =>
      rw [colonBranch_cons_eq] at h
      rcases orElse_eq_some_cases h with h1 | ⟨_, h2⟩
      · by_cases hc : c = ':'
        · rw [if_pos hc] at h1
          exact minuteBranch_some_shape rest hh a h1
        · rw [if_neg hc] at h1; cases h1
      · exact minuteBranch_some_shape (c :: rest) hh a h2

lemma hourBranch_some_shape (l : List Char) (a : AmpmMatch)
    (h : hourBranch l = some a) : GoodHour a.hourDigits ∧ GoodMinutes a.minuteDigits := by
  cases l with
  | nil => cases h
  | cons d1 rest =>
      cases rest with
      | nil =>
          rw [hourBranch_one_eq] at h
          by_cases hd : d1.isDigit = true
          · rw [if_pos hd] at h
            have hs := colonBranch_some_shape [] [d1] a h
            exact ⟨Or.inl ⟨d1, hs.1, hd⟩, hs.2⟩
          · rw [if_neg hd] at h; cases h
      | cons d2 rest2 =>
          rw [hourBranch_cons2_eq] at h
          by_cases hd : (d1.isDigit && d2.isDigit) = true
          · rw [if_pos hd] at h
            rcases orElse_eq_some_cases h with h1 | ⟨_, h2⟩
            · have hs := colonBranch_some_shape rest2 [d1, d2] a h1
              exact ⟨Or.inr ⟨d1, d2, hs.1, (Bool.and_eq_true _ _ |>.mp hd).1,
                (Bool.and_eq_true _ _ |>.mp hd).2⟩, hs.2⟩
            · have hs := colonBranch_some_shape (d2 :: rest2) [d1] a h2
              exact ⟨Or.inl ⟨d1, hs.1, (Bool.and_eq_true _ _ |>.mp hd).1⟩, hs.2⟩
          · rw [if_neg hd] at h
            by_cases hd1 : d1.isDigit = true
            · rw [if_pos hd1] at h
              have hs := colonBranch_some_shape (d2 :: rest2) [d1] a h
              exact ⟨Or.inl ⟨d1, hs.1, hd1⟩, hs.2⟩
            · rw [if_neg hd1] at h; cases h

lemma searchAmpm_some_shape (l : List Char) (a : AmpmMatch)
    (h : searchAmpm l = some a) : GoodHour a.hourDigits ∧ GoodMinutes a.minuteDigits := by
  induction l with
  | nil => cases h
  | cons c rest ih =>
      rw [searchAmpm_cons_eq] at h
      rcases orElse_eq_some_cases h with h1 | ⟨_, h2⟩
      · exact hourBranch_some_shape (c :: rest) a h1
      · exact ih h2

lemma matchHHMM_four_eq (c1 c2 c3 c4 : Char) :
    matchHHMM [c1, c2, c3, c4] =
      (if c2 = ':' && c1.isDigit && c3.isDigit && c4.isDigit then
        some ([c1], [c3, c4])
      else none) := rfl

lemma matchHHMM_five_eq (c1 c2 c3 c4 c5 : Char) :
    matchHHMM [c1, c2, c3, c4, c5] =
      (if c3 = ':' && c1.isDigit && c2.isDigit && c4.isDigit && c5.isDigit then
        some ([c1, c2], [c4, c5])
      else none) := rfl

lemma matchHHMM_some_shape (s : List Char) (p : List Char × List Char)
    (h : matchHHMM s = some p) : GoodHour p.1 ∧ ∃ m1 m2, p.2 = [m1, m2] ∧
      m1.isDigit = true ∧ m2.isDigit = true := by
  rcases s with _ | ⟨c1, _ | ⟨c2, _ | ⟨c3, _ | ⟨c4, _ | ⟨c5, _ | ⟨c6, rest⟩⟩⟩⟩⟩⟩
  · cases h
  · cases h
  · cases h
  · cases h
  · rw [matchHHMM_four_eq] at h
    by_cases hc : (c2 = ':' && c1.isDigit && c3.isDigit && c4.isDigit) = true
    · rw [if_pos hc] at h
      cases h
      simp only [Bool.and_eq_true] at hc
      refine ⟨Or.inl ⟨c1, rfl, by tauto⟩, c3, c4, rfl, by tauto, by tauto⟩
    · rw [if_neg hc] at h; cases h
  · rw [matchHHMM_five_eq] at h
    by_cases hc : (c3 = ':' && c1.isDigit && c2.isDigit && c4.isDigit && c5.isDigit) = true
    · rw [if_pos hc] at h
      cases h
      simp only [Bool.and_eq_true] at hc
      refine ⟨Or.inr ⟨c1, c2, rfl, by tauto, by tauto⟩, c4, c5, rfl, by tauto, by tauto⟩
    · rw [if_neg hc] at h; cases h
  · cases h

lemma matchHHMM_six_eq (c1 c2 c3 c4 c5 c6 : Char) (rest : List Char) :
    matchHHMM (c1 :: c2 :: c3 :: c4 :: c5 :: c6 :: rest) = none := rfl

lemma ampmHour_le (h : Nat) (pm : Bool) : ampmHour h pm ≤ h + 12 := by
  unfold ampmHour
  split_ifs <;> omega

/-- Every successful normalizeTime output is a padded hour below 1000
followed by a colon and two digit characters. -/
lemma normalizeTimeCore_shape (s r : List Char) (h : normalizeTimeCore s = some r) :
    ∃ hn m1 m2, hn < 1000 ∧ m1.isDigit = true ∧ m2.isDigit = true ∧
      r = pad2 hn ++ ':' :: [m1, m2] := by
  unfold normalizeTimeCore at h
  rcases orElse_eq_some_cases h with h1 | ⟨_, h2⟩
  · unfold hhmmBranch at h1
    cases hm : matchHHMM s with
    | none => rw [hm] at h1; cases h1
    | some p =>
        rw [hm] at h1
        have h1b : (if digitsToNat p.1 < 24 then
            some (pad2 (digitsToNat p.1) ++ ':' :: p.2) else none) = some r := h1
        by_cases h24 : digitsToNat p.1 < 24
        · rw [if_pos h24] at h1b
          cases h1b
          obtain ⟨hhour, m1, m2, hm2, hd1, hd2⟩ := matchHHMM_some_shape s p hm
          exact ⟨digitsToNat p.1, m1, m2, by omega, hd1, hd2, by rw [hm2]⟩
        · rw [if_neg h24] at h1b; cases h1b
  · cases ha : searchAmpm s with
    | none => rw [ha] at h2; cases h2
    | some a =>
        rw [ha] at h2
        have h2b : some (ampmResult a) = some r := h2
        cases h2b
        obtain ⟨hhour, hmin⟩ := searchAmpm_some_shape s a ha
        have hbound : digitsToNat a.hourDigits ≤ 99 := by
          rcases hhour with ⟨d, hd, hdig⟩ | ⟨d1, d2, hd, hdig1, hdig2⟩
          · rw [hd, digitsToNat_single]
            have := digitVal_le_nine d hdig
            omega
          · rw [hd, digitsToNat_pair]
            have hv1 := digitVal_le_nine d1 hdig1
            have hv2 := digitVal_le_nine d2 hdig2
            omega
        have hh1000 : ampmHour (digitsToNat a.hourDigits) a.isPM < 1000 := by
          have := ampmHour_le (digitsToNat a.hourDigits) a.isPM
          omega
        cases hmd : a.minuteDigits with
        | none =>
            refine ⟨ampmHour (digitsToNat a.hourDigits) a.isPM, '0', '0', hh1000,
              by decide, by decide, ?_⟩
            unfold ampmResult
            rw [hmd]
            rfl
        | some m =>
            rw [hmd] at hmin
            obtain ⟨m1, m2, hm, hd1, hd2⟩ := hmin
            refine ⟨ampmHour (digitsToNat a.hourDigits) a.isPM, m1, m2, hh1000, hd1, hd2, ?_⟩
            unfold ampmResult
            rw [hmd, hm]
            rfl

/-- Feeding a padded-hour-colon-minutes list back through the core accepts it
unchanged exactly when the hour is below 24, and rejects it otherwise. -/
lemma normalizeTimeCore_pad (hn : Nat) (m1 m2 : Char) (h1000 : hn < 1000)
    (hm1 : m1.isDigit = true) (hm2 : m2.isDigit = true) :
    normalizeTimeCore (pad2 hn ++ ':' :: [m1, m2]) =
      if hn < 24 then some (pad2 hn ++ ':' :: [m1, m2]) else none := by
  by_cases h100 : hn < 100
  · obtain ⟨c1, c2, hpad, hd1, hd2, hval⟩ := pad2_lt100 hn h100
    have hlist : pad2 hn ++ ':' :: [m1, m2] = [c1, c2, ':', m1, m2] := by
      rw [hpad]
      rfl
    have hhh : hhmmBranch [c1, c2, ':', m1, m2] =
        if hn < 24 then some [c1, c2, ':', m1, m2] else none := by
      unfold hhmmBranch
      rw [matchHHMM_five_eq]
      have hcond : (':' = ':' && c1.isDigit && c2.isDigit && m1.isDigit && m2.isDigit)
          = true := by
        simp [hd1, hd2, hm1, hm2]
      rw [if_pos hcond]
      show (if digitsToNat [c1, c2] < 24 then
          some (pad2 (digitsToNat [c1, c2]) ++ ':' :: [m1, m2]) else none) = _
      rw [hval, hlist]
    have hnol : ∀ c ∈ ([c1, c2, ':', m1, m2] : List Char), ¬IsAmpmLetter c := by
      intro c hc
      simp only [List.mem_cons, List.not_mem_nil, or_false] at hc
      rcases hc with rfl | rfl | rfl | rfl | rfl
      · exact isDigit_not_ampm_letter c hd1
      · exact isDigit_not_ampm_letter c hd2
      · unfold IsAmpmLetter
        decide
      · exact isDigit_not_ampm_letter c hm1
      · exact isDigit_not_ampm_letter c hm2
    have hsearch : searchAmpm [c1, c2, ':', m1, m2] = none :=
      searchAmpm_none_of_no_letter _ hnol
    rw [hlist]
    unfold normalizeTimeCore
    rw [hhh, hsearch]
    by_cases h24 : hn < 24
    · simp [h24, hlist]
    · simp [h24]
  · obtain ⟨c1, c2, c3, hpad, hd1, hd2, hd3⟩ := pad2_ge100 hn (by omega) h1000
    have hlist : pad2 hn ++ ':' :: [m1, m2] = [c1, c2, c3, ':', m1, m2] := by
      rw [hpad]
      rfl
    have hnol : ∀ c ∈ ([c1, c2, c3, ':', m1, m2] : List Char), ¬IsAmpmLetter c := by
      intro c hc
      simp only [List.mem_cons, List.not_mem_nil, or_false] at hc
      rcases hc with rfl | rfl | rfl | rfl | rfl | rfl
      · exact isDigit_not_ampm_letter c hd1
      · exact isDigit_not_ampm_letter c hd2
      · exact isDigit_not_ampm_letter c hd3
      · unfold IsAmpmLetter
        decide
      · exact isDigit_not_ampm_letter c hm1
      · exact isDigit_not_ampm_letter c hm2
    have hsearch : searchAmpm [c1, c2, c3, ':', m1, m2] = none :=
      searchAmpm_none_of_no_letter _ hnol
    have hhh : hhmmBranch [c1, c2, c3, ':', m1, m2] = none := by
      unfold hhmmBranch
      rw [matchHHMM_six_eq]
      rfl
    rw [hlist]
    unfold normalizeTimeCore
    rw [hhh, hsearch, if_neg (by omega : ¬hn < 24)]
    rfl

/-! ### Claim theorems -/

/-- Claim C1: whenever the calendar collaborator returns an event list, the
availability record is unavailable iff some returned event truly overlaps the
requested window under the half-open rule (event starts before the window
ends and the window starts before the event ends); events that merely share a
boundary instant never count, and the record is available iff no event
overlaps. -/
theorem claim_C1_availability_iff_overlap (date startTime endTime : String)
    (reqStart reqEnd : Int) (events : List CalEvent) :
    ((checkAvailability date startTime endTime reqStart reqEnd events).available = false ↔
       ∃ e ∈ events, e.eStart < reqEnd ∧ reqStart < e.eEnd) ∧
    ((checkAvailability date startTime endTime reqStart reqEnd events).available = true ↔
       ∀ e ∈ events, ¬(e.eStart < reqEnd ∧ reqStart < e.eEnd)) ∧
    ((∀ e ∈ events, e.eEnd = reqStart ∨ e.eStart = reqEnd) →
       (checkAvailability date startTime endTime reqStart reqEnd events).available = true) := by
  have key := available_eq_true_iff date startTime endTime reqStart reqEnd events
  refine ⟨?_, key, ?_⟩
  · rw [← Bool.not_eq_true, key]
    push_neg
    constructor
    · rintro ⟨e, he, h⟩
      exact ⟨e, he, h⟩
    · rintro ⟨e, he, h⟩
      exact ⟨e, he, h⟩
  · intro h
    rw [key]
    intro e he hc
    rcases h e he with hb | hb <;> omega

theorem claim_C1_witness :
    (checkAvailability "2025-01-15" "10:00" "11:00" 0 60 [⟨60, 120⟩]).available = true :=
  (claim_C1_availability_iff_overlap "2025-01-15" "10:00" "11:00" 0 60 [⟨60, 120⟩]).2.2
    (by decide)

/-- Claim C3: bookAppointment never propagates a throw to its caller; any
failure (invalid time field or calendar insert error) yields a record with
success false and a human-readable message, and a successful insert yields
success true with message, event id and link. -/
theorem claim_C3_book_shape (date startTime endTime : String) (ins : InsertOutcome) :
    (∀ e, normalizeTime startTime = .error e →
       bookAppointment date startTime endTime ins =
         { success := false
           message := "Unable to book the appointment at this time. Error: " ++ e
           eventId := none, link := none }) ∧
    (∀ fs e, normalizeTime startTime = .ok fs → normalizeTime endTime = .error e →
       bookAppointment date startTime endTime ins =
         { success := false
           message := "Unable to book the appointment at this time. Error: " ++ e
           eventId := none, link := none }) ∧
    (∀ fs fe m, normalizeTime startTime = .ok fs → normalizeTime endTime = .ok fe →
       ins = .failed m →
       bookAppointment date startTime endTime ins =
         { success := false
           message := "Unable to book the appointment at this time. Error: " ++ m
           eventId := none, link := none }) ∧
    (∀ fs fe id link, normalizeTime startTime = .ok fs → normalizeTime endTime = .ok fe →
       ins = .inserted id link →
       bookAppointment date startTime endTime ins =
         { success := true
           message := "Appointment booked successfully for " ++ date ++ " from "
             ++ startTime ++ " to " ++ endTime ++ "."
           eventId := some id, link := some link }) ∧
    ((bookAppointment date startTime endTime ins).success = true →
       (bookAppointment date startTime endTime ins).eventId.isSome = true ∧
       (bookAppointment date startTime endTime ins).link.isSome = true) := by
  refine ⟨?_, ?_, ?_, ?_, ?_⟩
  · intro e he
    simp [bookAppointment, bookAppointmentTry, he, Bind.bind, Except.bind]
  · intro fs e hs he
    simp [bookAppointment, bookAppointmentTry, hs, he, Bind.bind, Except.bind]
  · intro fs fe m hs he hins
    simp [bookAppointment, bookAppointmentTry, hs, he, hins, Bind.bind, Except.bind]
  · intro fs fe id link hs he hins
    simp [bookAppointment, bookAppointmentTry, hs, he, hins, Bind.bind, Except.bind]
  · intro hsucc
    cases htry : bookAppointmentTry date startTime endTime ins with
    | error e =>
        have hb : bookAppointment date startTime endTime ins =
            { success := false
              message := "Unable to book the appointment at this time. Error: " ++ e
              eventId := none, link := none } := by
          simp [bookAppointment, htry]
        rw [hb] at hsucc
        simp at hsucc
    | ok r =>
        have hb : bookAppointment date startTime endTime ins = r := by
          simp [bookAppointment, htry]
        rw [hb]
        have hshape := bookAppointmentTry_ok_shape date startTime endTime ins r htry
        exact ⟨hshape.2.1, hshape.2.2⟩

theorem claim_C3_witness :
    bookAppointment "2025-01-15" "10:00" "11:00" (.inserted "ev1" "http://link") =
      { success := true
        message := "Appointment booked successfully for 2025-01-15 from 10:00 to 11:00."
        eventId := some "ev1", link := some "http://link" } :=
  (claim_C3_book_shape "2025-01-15" "10:00" "11:00" (.inserted "ev1" "http://link")).2.2.2.1
    "10:00" "11:00" "ev1" "http://link" (by decide) (by decide) rfl

/-- Claim C4: the webhook loop produces exactly one result per invocation in
the batch, each bound to the id of the invocation it answers; an invocation
whose string-encoded argument bag fails to parse yields an error-text result
for that invocation only, and every other invocation of the batch still
contributes its own result. -/
theorem claim_C4_batch_results (parse : String → Except String ArgBag)
    (exec : String → ArgBag → String) (calls : List ToolCall) :
    (processToolCalls parse exec calls).length = calls.length ∧
    (processToolCalls parse exec calls).map (fun r => r.toolCallId) =
      calls.map (fun c => c.id) ∧
    (∀ tc ∈ calls, ∀ s e, tc.arguments = Sum.inl s → parse s = .error e →
       ({ toolCallId := tc.id, result := "Error: " ++ e } : ToolResultEntry) ∈
         processToolCalls parse exec calls) ∧
    (∀ tc ∈ calls, processToolCall parse exec tc ∈ processToolCalls parse exec calls) := by
  refine ⟨?_, ?_, ?_, ?_⟩
  · simp [processToolCalls]
  · rw [processToolCalls, List.map_map]
    exact List.map_congr_left fun tc _ => processToolCall_toolCallId parse exec tc
  · intro tc htc s e harg hparse
    have : processToolCall parse exec tc =
        { toolCallId := tc.id, result := "Error: " ++ e } := by
      unfold processToolCall
      rw [harg]
      simp [hparse]
    rw [← this]
    exact List.mem_map_of_mem _ htc
  · intro tc htc
    exact List.mem_map_of_mem _ htc

theorem claim_C4_witness :
    ({ toolCallId := "call-2", result := "Error: Unexpected token" } : ToolResultEntry) ∈
      processToolCalls (fun _ => .error "Unexpected token") (fun _ _ => "done")
        [⟨"call-1", "check_availability", .inr []⟩,
         ⟨"call-2", "book_appointment", .inl "not valid json"⟩] :=
  (claim_C4_batch_results (fun _ => .error "Unexpected token") (fun _ _ => "done")
      [⟨"call-1", "check_availability", .inr []⟩,
       ⟨"call-2", "book_appointment", .inl "not valid json"⟩]).2.2.1
    ⟨"call-2", "book_appointment", .inl "not valid json"⟩ (by simp)
    "not valid json" "Unexpected token" rfl rfl

/-- Claim C8: a conversational payload with no usable turns (missing,
non-array or empty messages, or only system turns) is rejected with HTTP 400
independently of the post-validation remainder of the handler (which begins
with the remote LLM call), while a webhook ping without tool calls is
acknowledged with a received-true success; the two responses differ. -/
theorem claim_C8_reject_vs_ack (rest1 rest2 : String → List Msg → HttpResponse)
    (parse : String → Except String ArgBag) (exec : String → ArgBag → String)
    (messages? : Option (List Msg)) (h : NoUsableTurns messages?) :
    (∃ e, handleConversation rest1 messages? = { status := 400, body := .errorBody e }) ∧
    handleConversation rest1 messages? = handleConversation rest2 messages? ∧
    webhookHandler parse exec none = { status := 200, body := .ackBody } ∧
    webhookHandler parse exec (some []) = { status := 200, body := .ackBody } ∧
    (∀ e, ({ status := 400, body := .errorBody e } : HttpResponse) ≠
       { status := 200, body := .ackBody }) := by
  have hmain : ∀ rest : String → List Msg → HttpResponse,
      handleConversation rest messages? =
        handleConversation (fun _ _ => { status := 0, body := .ackBody }) messages? ∧
      ∃ e, handleConversation rest messages? = { status := 400, body := .errorBody e } := by
    intro rest
    rcases h with hnone | hempty | ⟨l, hl, hsys⟩
    · rw [hnone]
      exact ⟨rfl, "No valid messages provided", rfl⟩
    · rw [hempty]
      exact ⟨rfl, "No valid messages provided", rfl⟩
    · rw [hl]
      have hfilter : l.filter (fun m => m.role != "system") = [] := by
        rw [List.filter_eq_nil_iff]
        intro m hm
        simp [hsys m hm]
      have hcanon : (canonicalizeConv l).2.length = 0 := by
        simp [canonicalizeConv, hfilter]
      cases l with
      | nil => exact ⟨rfl, "No valid messages provided", rfl⟩
      | cons a as =>
          constructor
          · show handleConversation rest (some (a :: as)) = _
            unfold handleConversation
            simp [hcanon]
          · refine ⟨"At least one non-system message required", ?_⟩
            unfold handleConversation
            simp [hcanon]
  refine ⟨(hmain rest1).2, ?_, rfl, rfl, ?_⟩
  · rw [(hmain rest1).1, (hmain rest2).1]
  · intro e hc
    simp [HttpResponse.mk.injEq] at hc

/-- Claim C2: an input on which both of normalizeTime's accepted patterns
fail (the anchored HH:MM pattern with its hour-below-24 check, and the
unanchored 12-hour AM/PM search) makes normalizeTime fail with an
invalid-time-format error whose message contains the offending input; such an
input is never returned as if it were a valid time.  Every error message also
carries the offending input. -/
theorem claim_C2_invalid_input_fails :
    (∀ t : String, hhmmBranch t.toList = none → searchAmpm t.toList = none →
       normalizeTime t =
         .error ("Invalid time format: " ++ t ++ ". Expected HH:MM or H:MM AM/PM") ∧
       ∀ r, normalizeTime t ≠ .ok r) ∧
    (∀ t msg, normalizeTime t = .error msg →
       ∃ suffix, msg = "Invalid time format: " ++ t ++ suffix) := by
  constructor
  · intro t h1 h2
    have hc : normalizeTimeCore t.toList = none := by
      unfold normalizeTimeCore
      rw [h1, h2]
      rfl
    constructor
    · unfold normalizeTime
      rw [hc]
    · intro r
      unfold normalizeTime
      rw [hc]
      intro hx
      cases hx
  · intro t msg h
    unfold normalizeTime at h
    cases hc : normalizeTimeCore t.toList with
    | some r => rw [hc] at h; cases h
    | none =>
        rw [hc] at h
        cases h
        exact ⟨". Expected HH:MM or H:MM AM/PM", rfl⟩

theorem claim_C2_witness :
    normalizeTime "banana" =
      .error ("Invalid time format: " ++ "banana" ++ ". Expected HH:MM or H:MM AM/PM") ∧
    ∀ r, normalizeTime "banana" ≠ .ok r :=
  claim_C2_invalid_input_fails.1 "banana" (by decide) (by decide)

/-- Claim C5: normalizeTime maps 7 PM to 19:00, 12 AM to 00:00, 9:05 to
09:05, fails on 25:00, and in the 12-hour branch adds 12 to a PM hour other
than 12, maps hour 12 AM to 0, and defaults omitted minutes to 00. -/
theorem claim_C5_examples_and_rules :
    normalizeTime "7 PM" = .ok "19:00" ∧
    normalizeTime "12 AM" = .ok "00:00" ∧
    normalizeTime "9:05" = .ok "09:05" ∧
    normalizeTime "25:00" =
      .error "Invalid time format: 25:00. Expected HH:MM or H:MM AM/PM" ∧
    (∀ h : Nat, h ≠ 12 → ampmHour h true = h + 12) ∧
    ampmHour 12 false = 0 ∧
    (∀ hd pm, ampmResult ⟨hd, none, pm⟩ =
       pad2 (ampmHour (digitsToNat hd) pm) ++ ':' :: ['0', '0']) := by
  refine ⟨by decide, by decide, by decide, by decide, ?_, by decide, fun hd pm => rfl⟩
  intro h hne
  simp [ampmHour, hne]

theorem claim_C5_witness : ampmHour 7 true = 7 + 12 :=
  claim_C5_examples_and_rules.2.2.2.2.1 7 (by decide)

/-- Claim C9: the 12-hour branch has no range check on the matched hour and
its pattern is unanchored: 13:30 PM is accepted and yields 25:30, any input
on which the anchored branch fails but the AM/PM search succeeds is accepted
(for instance a string merely containing a time-like substring before AM/PM),
and a matched PM hour of 13 or more produces a result hour of 24 or more. -/
theorem claim_C9_no_range_check_unanchored :
    normalizeTime "13:30 PM" = .ok "25:30" ∧
    (∀ s a, hhmmBranch s = none → searchAmpm s = some a →
       normalizeTimeCore s = some (ampmResult a)) ∧
    (∀ a : AmpmMatch, a.isPM = true → 13 ≤ digitsToNat a.hourDigits →
       24 ≤ ampmHour (digitsToNat a.hourDigits) a.isPM) ∧
    normalizeTime "hello 7 PM world" = .ok "19:00" := by
  refine ⟨by decide, ?_, ?_, by decide⟩
  · intro s a h1 h2
    unfold normalizeTimeCore
    rw [h1, h2]
    rfl
  · intro a hpm hge
    rw [hpm]
    unfold ampmHour
    have hne : digitsToNat a.hourDigits ≠ 12 := by omega
    simp [hne]
    omega

theorem claim_C9_witness :
    normalizeTimeCore ("hello 7 PM world").toList = some (ampmResult ⟨['7'], none, true⟩) ∧
    24 ≤ ampmHour (digitsToNat ['1', '3']) true :=
  ⟨claim_C9_no_range_check_unanchored.2.1 ("hello 7 PM world").toList ⟨['7'], none, true⟩
      (by decide) (by decide),
   claim_C9_no_range_check_unanchored.2.2.1 ⟨['1', '3'], none, true⟩ rfl (by decide)⟩

/-- Claim C10: the minutes component is never validated: any input of shape
one-or-two digit hour below 24, colon, two digit characters is accepted with
the minute digits returned verbatim, out-of-range minutes included, as in
10:99 returned as 10:99. -/
theorem claim_C10_minutes_unchecked :
    normalizeTime "10:99" = .ok "10:99" ∧
    (∀ a m1 m2 : Char, a.isDigit = true → m1.isDigit = true → m2.isDigit = true →
       digitsToNat [a] < 24 →
       normalizeTime ⟨[a, ':', m1, m2]⟩ = .ok ⟨pad2 (digitsToNat [a]) ++ ':' :: [m1, m2]⟩) ∧
    (∀ a b m1 m2 : Char, a.isDigit = true → b.isDigit = true → m1.isDigit = true →
       m2.isDigit = true → digitsToNat [a, b] < 24 →
       normalizeTime ⟨[a, b, ':', m1, m2]⟩ =
         .ok ⟨pad2 (digitsToNat [a, b]) ++ ':' :: [m1, m2]⟩) := by
  refine ⟨by decide, ?_, ?_⟩
  · intro a m1 m2 ha hm1 hm2 h24
    have hcore : normalizeTimeCore [a, ':', m1, m2] =
        some (pad2 (digitsToNat [a]) ++ ':' :: [m1, m2]) := by
      unfold normalizeTimeCore hhmmBranch matchHHMM
      simp [ha, hm1, hm2, h24]
    unfold normalizeTime
    rw [show ((⟨[a, ':', m1, m2]⟩ : String).toList) = [a, ':', m1, m2] from rfl, hcore]
  · intro a b m1 m2 ha hb hm1 hm2 h24
    have hcore : normalizeTimeCore [a, b, ':', m1, m2] =
        some (pad2 (digitsToNat [a, b]) ++ ':' :: [m1, m2]) := by
      unfold normalizeTimeCore hhmmBranch matchHHMM
      simp [ha, hb, hm1, hm2, h24]
    unfold normalizeTime
    rw [show ((⟨[a, b, ':', m1, m2]⟩ : String).toList) = [a, b, ':', m1, m2] from rfl, hcore]

theorem claim_C10_witness :
    normalizeTime ⟨['7', ':', '9', '9']⟩ = .ok ⟨pad2 (digitsToNat ['7']) ++ ':' :: ['9', '9']⟩ :=
  claim_C10_minutes_unchecked.2.1 '7' '9' '9' (by decide) (by decide) (by decide) (by decide)

theorem claim_C8_witness :
    (∃ e, handleConversation (fun sys _ => { status := 200, body := .chatBody sys })
        (some [⟨"system", "persona"⟩]) = { status := 400, body := .errorBody e }) ∧
    webhookHandler (fun _ => .ok []) (fun _ _ => "done") none =
      { status := 200, body := .ackBody } :=
  ⟨(claim_C8_reject_vs_ack (fun sys _ => { status := 200, body := .chatBody sys })
      (fun sys _ => { status := 200, body := .chatBody sys })
      (fun _ => .ok []) (fun _ _ => "done") (some [⟨"system", "persona"⟩])
      (Or.inr (Or.inr ⟨[⟨"system", "persona"⟩], rfl, by decide⟩))).1,
   (claim_C8_reject_vs_ack (fun sys _ => { status := 200, body := .chatBody sys })
      (fun sys _ => { status := 200, body := .chatBody sys })
      (fun _ => .ok []) (fun _ _ => "done") (some [⟨"system", "persona"⟩])
      (Or.inr (Or.inr ⟨[⟨"system", "persona"⟩], rfl, by decide⟩))).2.2.1⟩


/-- Counterexample to claim C6 as stated: 13:30 PM normalizes successfully
to 25:30, but normalizing that result again fails instead of returning it
unchanged, so normalize composed with itself differs from normalize here. -/
theorem claim_C6_counterexample :
    normalizeTime "13:30 PM" = .ok "25:30" ∧
    normalizeTime "25:30" ≠ .ok "25:30" ∧
    (∃ msg, normalizeTime "25:30" = .error msg) := by
  refine ⟨by decide, by decide, "Invalid time format: 25:30. Expected HH:MM or H:MM AM/PM",
    by decide⟩

/-- Claim C6 (amended): normalizeTime is idempotent on every success whose
result it accepts again: whenever a second application of normalizeTime to a
successful result itself succeeds, it returns that result unchanged.  (The
unchecked 12-hour branch can produce an hour of 24 or more, on which the
second application fails instead.) -/
theorem claim_C6_second_application_identity (x y z : String)
    (hx : normalizeTime x = .ok y) (hy : normalizeTime y = .ok z) : z = y := by
  unfold normalizeTime at hx
  cases hcx : normalizeTimeCore x.toList with
  | none => rw [hcx] at hx; cases hx
  | some r =>
      rw [hcx] at hx
      cases hx
      obtain ⟨hn, m1, m2, h1000, hm1, hm2, hr⟩ := normalizeTimeCore_shape _ r hcx
      unfold normalizeTime at hy
      have hy2 : (match normalizeTimeCore r with
          | some rr => Except.ok (⟨rr⟩ : String)
          | none => Except.error ("Invalid time format: " ++ (⟨r⟩ : String)
              ++ ". Expected HH:MM or H:MM AM/PM")) = Except.ok z := hy
      subst hr
      rw [normalizeTimeCore_pad hn m1 m2 h1000 hm1 hm2] at hy2
      by_cases h24 : hn < 24
      · rw [if_pos h24] at hy2
        have hy3 : Except.ok (⟨pad2 hn ++ ':' :: [m1, m2]⟩ : String) = Except.ok z := hy2
        cases hy3
        rfl
      · rw [if_neg h24] at hy2
        cases hy2

theorem claim_C6_witness :
    ∃ y, normalizeTime "7 PM" = .ok y ∧ ∀ z, normalizeTime y = .ok z → z = y :=
  ⟨"19:00", by decide,
    fun z hz => claim_C6_second_application_identity "7 PM" "19:00" z (by decide) hz⟩

/-- Counterexample to claim C7 as stated: a system turn whose content is the
empty string is not made available as the system prompt; the JS truthiness
or-else substitutes the baked-in default persona instead. -/
theorem claim_C7_counterexample :
    (canonicalizeConv [⟨"system", ""⟩, ⟨"user", "hi"⟩]).1 = defaultSystem ∧
    (canonicalizeConv [⟨"system", ""⟩, ⟨"user", "hi"⟩]).1 ≠ "" := by
  constructor
  · rfl
  · decide

/-- Claim C7 (amended): for a message list with one system turn of non-empty
content inserted at any position among non-system turns, canonicalization
removes the system turn, exposes its content as the system prompt, folds
every remaining non-assistant role to user with content preserved, and the
result does not depend on the insertion position. -/
theorem claim_C7_system_extraction (m : List Msg) (s : Msg) (i : Nat)
    (hsys : s.role = "system") (hcontent : s.content ≠ "")
    (hclean : ∀ x ∈ m, x.role ≠ "system") :
    canonicalizeConv (m.take i ++ s :: m.drop i) = (s.content, m.map toClaudeMsg) := by
  have hfind : (m.take i ++ s :: m.drop i).find? (fun x => x.role == "system") = some s := by
    rw [List.find?_append]
    have h1 : (m.take i).find? (fun x => x.role == "system") = none := by
      rw [List.find?_eq_none]
      intro x hx
      simp [hclean x (List.take_subset i m hx)]
    rw [h1, List.find?_cons_of_pos _ (by simp [hsys])]
    rfl
  have hfilter : (m.take i ++ s :: m.drop i).filter (fun x => x.role != "system") =
      m.take i ++ m.drop i := by
    rw [List.filter_append, List.filter_cons_of_neg (by simp [hsys])]
    rw [List.filter_eq_self.mpr, List.filter_eq_self.mpr]
    · intro x hx
      simp [hclean x (List.drop_subset i m hx)]
    · intro x hx
      simp [hclean x (List.take_subset i m hx)]
  unfold canonicalizeConv extractSystem
  rw [hfind, hfilter, List.take_append_drop]
  simp [hcontent]

theorem claim_C7_witness :
    canonicalizeConv [⟨"user", "hi"⟩, ⟨"system", "persona"⟩] =
      ("persona", [⟨"user", "hi"⟩]) := by
  have h := claim_C7_system_extraction [⟨"user", "hi"⟩] ⟨"system", "persona"⟩ 1
    rfl (by decide) (by decide)
  simpa using h
end VapiWebhook